import Mathlib

/-!
Verification of `.github/scripts/release_watch.py` (Traxe repository).

The Python script is shallowly embedded: Python strings become `List Char`
(named `Str` below), Python `None`-able values become `Option`, raised
exceptions become `Except Err`, and the ambient clock / environment become
explicit parameters.  Every definition mirrors the corresponding construct of
the source file; the theorems at the end of the file settle the frozen claims.
-/

/-- Python strings are modelled as lists of characters. -/
abbrev Str := List Char

/-- Whitespace characters recognised by Python's `str.strip()` and the regex
class `\s` (ASCII subset: space, tab, newline, carriage return, vertical tab,
form feed). -/
def isSpace (c : Char) : Bool :=
  c = ' ' || c = '\t' || c = '\n' || c = '\r' || c = '\x0b' || c = '\x0c'

/-- Python `str.strip()`: drop leading and trailing whitespace. -/
def pyStrip (l : Str) : Str :=
  ((l.dropWhile isSpace).reverse.dropWhile isSpace).reverse

/-- ASCII lower-casing, modelling Python `str.lower()` on the ASCII range. -/
def pyLower (l : Str) : Str :=
  l.map fun c => if 65 ≤ c.toNat && c.toNat ≤ 90 then Char.ofNat (c.toNat + 32) else c

/-- Python substring test `needle in hay`. -/
def strContains : Str → Str → Bool
  | [], needle => needle.isEmpty
  | hay@(_ :: rest), needle => needle.isPrefixOf hay || strContains rest needle

/-- Scanner behind `splitlines`; `acc` holds the current line reversed.  After
a line boundary an exhausted input yields no further (empty) trailing line,
matching Python's `str.splitlines()`. -/
def splitlinesAux : Str → Str → List Str
  | [], acc => [acc.reverse]
  | '\r' :: '\n' :: rest, acc =>
      acc.reverse :: (if rest.isEmpty then [] else splitlinesAux rest [])
  | '\r' :: rest, acc =>
      acc.reverse :: (if rest.isEmpty then [] else splitlinesAux rest [])
  | '\n' :: rest, acc =>
      acc.reverse :: (if rest.isEmpty then [] else splitlinesAux rest [])
  | c :: rest, acc => splitlinesAux rest (c :: acc)

/-- Python `str.splitlines()` restricted to the line boundaries `\n`, `\r` and
`\r\n` (the forms occurring in release bodies). -/
def splitlines : Str → List Str
  | [] => []
  | l => splitlinesAux l []

/-- `BREAKING_KEYS` from the source file, in order. -/
def BREAKING_KEYS : List Str :=
  ["breaking".data, "remove".data, "rename".data, "deprecat".data, "schema".data,
   "openapi".data, "api".data, "tls".data, "https".data, "auth".data, "config".data,
   "protocol".data, "migration".data]

/-- `FEATURE_KEYS` from the source file, in order (note the trailing spaces in
`"add "` and `"new "`). -/
def FEATURE_KEYS : List Str :=
  ["add ".data, "added".data, "feat".data, "feature".data, "support".data,
   "introduce".data, "new ".data, "bring back".data, "restore".data]

/-- `any(key in item.lower() for key in keys)` — the membership test used by
`classify` for both keyword lists. -/
def matchesAny (keys : List Str) (item : Str) : Bool :=
  keys.any fun key => strContains (pyLower item) key

/-- `classify` from the source file: each item goes to the breaking list when a
breaking keyword occurs in its lower-cased form, else to the features list when
a feature keyword occurs, else to the other list.  The Python `for` loop with
three append-accumulators is rendered as structural recursion that conses onto
the classification of the remaining items, preserving order. -/
def classify : List Str → List Str × List Str × List Str
  | [] => ([], [], [])
  | item :: rest =>
    let (breaking, features, other) := classify rest
    if matchesAny BREAKING_KEYS item then (item :: breaking, features, other)
    else if matchesAny FEATURE_KEYS item then (breaking, item :: features, other)
    else (breaking, features, item :: other)

/-- Marker characters of the bullet regex character class `[\*-]`. -/
def isMarker (c : Char) : Bool := c = '*' || c = '-'

/-- `re.sub(r"^[\*-]+\s+", "", line)`: the (greedy, anchored) pattern matches
exactly when the maximal leading run of marker characters is immediately
followed by at least one whitespace character; the run and the following
whitespace run are then removed.  When no whitespace follows the marker run
the pattern does not match and the line is returned unchanged. -/
def subMarkers (l : Str) : Str :=
  let markers := l.takeWhile isMarker
  let rest := l.drop markers.length
  if markers ≠ [] ∧ (rest.head?.elim false isSpace) then rest.dropWhile isSpace
  else l

/-- The loop body of `extract_items`, one line at a time. -/
def extractItemsGo : List Str → List Str
  | [] => []
  | line :: rest =>
    let l := pyStrip line
    if "*".data.isPrefixOf l || "-".data.isPrefixOf l then
      let item := pyStrip (subMarkers l)
      if item ≠ [] then item :: extractItemsGo rest else extractItemsGo rest
    else extractItemsGo rest

/-- `extract_items` from the source file: strip each line, keep those starting
with `*` or `-`, remove the bullet-marker prefix, strip again, and drop
results that became empty. -/
def extract_items (body : Str) : List Str :=
  extractItemsGo (splitlines body)

/-- Declarative per-line form of the `extract_items` loop body: the bullet item
produced by one line, if any. -/
def itemOfLine (line : Str) : Option Str :=
  let l := pyStrip line
  if "*".data.isPrefixOf l || "-".data.isPrefixOf l then
    let item := pyStrip (subMarkers l)
    if item = [] then none else some item
  else none

/-- The extractor as the claim literally words it: on a qualifying line the
leading run of marker characters and the whitespace following it are stripped
unconditionally (even when no whitespace follows the markers).  Stated for
comparison with `extract_items`. -/
def extract_items_claim (body : Str) : List Str :=
  (splitlines body).filterMap fun line =>
    let l := pyStrip line
    if "*".data.isPrefixOf l || "-".data.isPrefixOf l then
      let item := pyStrip ((l.dropWhile isMarker).dropWhile isSpace)
      if item = [] then none else some item
    else none

/-- `re.search(r"https?://\S+", line)`: leftmost-first search.  A position
matches only when its suffix starts with `https://` or `http://` AND at least
one non-whitespace character follows that protocol prefix (the one-or-more
requirement of `\S+`); the greedy `\S+` then extends the match through every
following non-whitespace character.  A bare `http(s)://` followed by
whitespace or end-of-line does not match and the scan continues at the next
position. -/
def reSearchHttp : Str → Option Str
  | [] => none
  | line@(_ :: rest) =>
    if ("https://".data.isPrefixOf line &&
          ((line.drop 8).head?.elim false fun c => !isSpace c)) ||
       ("http://".data.isPrefixOf line &&
          ((line.drop 7).head?.elim false fun c => !isSpace c)) then
      some (line.takeWhile fun c => !isSpace c)
    else reSearchHttp rest

/-- `str.rstrip("\n\r")`: drop trailing newline and carriage-return characters. -/
def rstripNR (l : Str) : Str :=
  (l.reverse.dropWhile fun c => c = '\n' || c = '\r').reverse

/-- `extract_changelog_url` from the source file: scan lines; on a line
containing both `"Full Changelog"` and `"http"`, return the regex match if the
regex finds one, otherwise keep scanning the remaining lines. -/
def extractChangelogUrlGo : List Str → Option Str
  | [] => none
  | line :: rest =>
    if strContains line "Full Changelog".data && strContains line "http".data then
      match reSearchHttp line with
      | some m => some (rstripNR m)
      | none => extractChangelogUrlGo rest
    else extractChangelogUrlGo rest

/-- `extract_changelog_url` from the source file. -/
def extract_changelog_url (body : Str) : Option Str :=
  extractChangelogUrlGo (splitlines body)

/-- The comparison-URL extractor as the claim literally words it: take the
first line containing both `"Full Changelog"` and `"http"`, and extract the
token from that line only (yielding none when that line has no
`http(s)://`-prefixed token).  Stated for comparison with
`extract_changelog_url`. -/
def extract_changelog_url_claim (body : Str) : Option Str :=
  match (splitlines body).find? fun line =>
      strContains line "Full Changelog".data && strContains line "http".data with
  | none => none
  | some line => (reSearchHttp line).map rstripNR

/-- Declarative per-line form of the URL scan: the stripped token produced by
one line, when the line contains both required substrings and the regex finds
a token on it. -/
def urlOfLine (line : Str) : Option Str :=
  if strContains line "Full Changelog".data && strContains line "http".data then
    (reSearchHttp line).map rstripNR
  else none

/-- Errors of the embedded pipeline: `formatError` models the `ValueError`
raised by `datetime.fromisoformat` on malformed input (the spec's
`FormatError`), `typeError` models the `AttributeError`/`TypeError` raised
when `parse_iso8601` is applied to `None`. -/
inductive Err where
  | formatError : Err
  | typeError : Err
deriving DecidableEq, Repr

/-- Gregorian leap-year test, as in Python's `calendar`/`datetime`. -/
def isLeap (y : Nat) : Bool :=
  y % 4 = 0 && (y % 100 ≠ 0 || y % 400 = 0)

/-- Days in a month of a given year (0 for an invalid month number). -/
def daysInMonth (y m : Nat) : Nat :=
  match m with
  | 1 => 31 | 2 => if isLeap y then 29 else 28 | 3 => 31 | 4 => 30 | 5 => 31
  | 6 => 30 | 7 => 31 | 8 => 31 | 9 => 30 | 10 => 31 | 11 => 30 | 12 => 31
  | _ => 0

/-- Days from 0001-01-01 to the start of year `y` (Python's
`_days_before_year`): `n*365 + n/4 - n/100 + n/400` with `n = y - 1`. -/
def daysBeforeYear (y : Nat) : Nat :=
  let n := y - 1
  365 * n + n / 4 + n / 400 - n / 100

/-- Days from the start of the year to the start of month `m` (Python's
`_days_before_month`). -/
def daysBeforeMonth (y m : Nat) : Nat :=
  (match m with
   | 1 => 0 | 2 => 31 | 3 => 59 | 4 => 90 | 5 => 120 | 6 => 151
   | 7 => 181 | 8 => 212 | 9 => 243 | 10 => 273 | 11 => 304 | 12 => 334
   | _ => 0) +
  (if 2 < m && isLeap y then 1 else 0)

/-- Seconds from 0001-01-01T00:00:00 to the given wall-clock fields, the
instant scale used throughout the embedding (Python's `toordinal`-based
comparison collapsed to one integer). -/
def naiveSecs (y mo d h mi s : Nat) : Nat :=
  (daysBeforeYear y + daysBeforeMonth y mo + (d - 1)) * 86400 +
    h * 3600 + mi * 60 + s

/-- Numeric value of a decimal digit character. -/
def dv (c : Char) : Nat := c.toNat - 48

/-- Offset suffix of an ISO string: empty (naive) or `±HH:MM` with the offset
bounded below one day, as `datetime.fromisoformat` requires.  Returns the
offset in minutes; `none` on a malformed suffix. -/
def parseOff : Str → Option (Option Int)
  | [] => some none
  | [sign, o1, o2, c, o3, o4] =>
    if (sign = '+' || sign = '-') && o1.isDigit && o2.isDigit && c = ':' &&
        o3.isDigit && o4.isDigit then
      let oh := 10 * dv o1 + dv o2
      let om := 10 * dv o3 + dv o4
      if oh ≤ 23 && om ≤ 59 then
        some (some (if sign = '-' then -((oh * 60 + om : Nat) : Int)
                    else ((oh * 60 + om : Nat) : Int)))
      else none
    else none
  | _ => none

/-- Model of `datetime.fromisoformat`, restricted to the grammar
`YYYY-MM-DD(T| )HH:MM:SS[±HH:MM]` — the shape taken by the platform's
timestamps once `"Z"` has been replaced by `"+00:00"` (no fractional-second
support; seconds resolution).  Returns the naive instant on the
`naiveSecs` scale together with the optional UTC offset in minutes, or `none`
when the string is malformed (Python raises `ValueError` there). -/
def fromisoformat (l : Str) : Option (Nat × Option Int) :=
  match l with
  | y1 :: y2 :: y3 :: y4 :: c1 :: mo1 :: mo2 :: c2 :: d1 :: d2 :: sep ::
      h1 :: h2 :: c3 :: mi1 :: mi2 :: c4 :: s1 :: s2 :: rest =>
    if y1.isDigit && y2.isDigit && y3.isDigit && y4.isDigit && c1 = '-' &&
        mo1.isDigit && mo2.isDigit && c2 = '-' && d1.isDigit && d2.isDigit &&
        (sep = 'T' || sep = ' ') && h1.isDigit && h2.isDigit && c3 = ':' &&
        mi1.isDigit && mi2.isDigit && c4 = ':' && s1.isDigit && s2.isDigit then
      let y := 1000 * dv y1 + 100 * dv y2 + 10 * dv y3 + dv y4
      let mo := 10 * dv mo1 + dv mo2
      let d := 10 * dv d1 + dv d2
      let h := 10 * dv h1 + dv h2
      let mi := 10 * dv mi1 + dv mi2
      let s := 10 * dv s1 + dv s2
      if 1 ≤ y && 1 ≤ mo && mo ≤ 12 && 1 ≤ d && d ≤ daysInMonth y mo &&
          h ≤ 23 && mi ≤ 59 && s ≤ 59 then
        match parseOff rest with
        | some off => some (naiveSecs y mo d h mi s, off)
        | none => none
      else none
    else none
  | _ => none

/-- `value.replace("Z", "+00:00")`: every occurrence of the character `Z` is
replaced by the six-character offset `+00:00`. -/
def replaceZ (l : Str) : Str :=
  (l.map fun c => if c = 'Z' then "+00:00".data else [c]).flatten

/-- `parse_iso8601` from the source file.  `localOff` is the ambient local-time
offset, in minutes, used by `astimezone` when the parsed value is naive;
offset-aware values are normalized to UTC by subtracting their own offset.
Malformed input yields `Err.formatError` (Python's uncaught `ValueError`). -/
def parse_iso8601 (localOff : Int) (value : Str) : Except Err Int :=
  match fromisoformat (replaceZ value) with
  | none => .error .formatError
  | some (naive, some off) => .ok ((naive : Int) - 60 * off)
  | some (naive, none) => .ok ((naive : Int) - 60 * localOff)

/-- Decimal digit characters `0`–`9`. -/
def dChar (n : Nat) : Char :=
  match n with
  | 0 => '0' | 1 => '1' | 2 => '2' | 3 => '3' | 4 => '4'
  | 5 => '5' | 6 => '6' | 7 => '7' | 8 => '8' | _ => '9'

/-- Two-digit zero-padded decimal rendering (`"%02d"`). -/
def pad2 (n : Nat) : Str := [dChar (n / 10), dChar (n % 10)]

/-- Four-digit zero-padded decimal rendering (`"%04d"`). -/
def pad4 (n : Nat) : Str :=
  [dChar (n / 1000), dChar (n / 100 % 10), dChar (n / 10 % 10), dChar (n % 10)]

/-- Civil date from a day number on the `naiveSecs` scale (days since
0001-01-01), by the standard era-decomposition algorithm; executable inverse
of the `daysBeforeYear`/`daysBeforeMonth` ordinal. -/
def civilFromDays (day : Int) : Int × Nat × Nat :=
  let z := day + 306
  let era := z.fdiv 146097
  let doe := (z - era * 146097).toNat
  let yoe := (doe - doe / 1460 + doe / 36524 - doe / 146096) / 365
  let doy := doe - (365 * yoe + yoe / 4 - yoe / 100)
  let mp := (5 * doy + 2) / 153
  let d := doy - (153 * mp + 2) / 5 + 1
  let m := if mp < 10 then mp + 3 else mp - 9
  let y := (yoe : Int) + era * 400 + (if m ≤ 2 then 1 else 0)
  (y, m, d)

/-- `datetime.date.isoformat()` of the calendar date holding the given UTC
instant (`published.date().isoformat()` in the source). -/
def dateIso (secs : Int) : Str :=
  let c := civilFromDays (secs.fdiv 86400)
  pad4 c.1.toNat ++ "-".data ++ pad2 c.2.1 ++ "-".data ++ pad2 c.2.2

/-- Unpadded decimal rendering of a natural number (Python `str(n)`). -/
def natDec (n : Nat) : Str := Nat.toDigits 10 n

/-- A release record as consumed from the platform JSON.  `none` models an
absent or `null` field; the `draft`/`prerelease` flags collapse Python
truthiness to `Bool`. -/
structure Release where
  tag_name : Option Str := none
  published_at : Option Str := none
  created_at : Option Str := none
  prerelease : Bool := false
  draft : Bool := false
  html_url : Option Str := none
  body : Option Str := none
deriving DecidableEq

/-- `release.get("published_at") or release.get("created_at")`: Python `or`
falls through on falsy values, so an empty `published_at` string also defers
to `created_at`. -/
def pubOrCreated (r : Release) : Option Str :=
  match r.published_at with
  | some s => if s = [] then r.created_at else some s
  | none => r.created_at

/-- One markdown bullet line (`f"- {item}"`). -/
def bullet (item : Str) : Str := "- ".data ++ item

/-- `sep.join(parts)`. -/
def joinSep (sep : Str) : List Str → Str
  | [] => []
  | [x] => x
  | x :: xs => x ++ sep ++ joinSep sep xs

/-- `"\n".join(parts)`. -/
def joinNL (parts : List Str) : Str := joinSep "\n".data parts

/-- `format_release` from the source file, producing the markdown block line
by line (the Python function joins these lines with newlines at the end).
The calls `parse_iso8601(None)` (both timestamps absent) and
`parse_iso8601` on malformed input surface as errors. -/
def formatReleaseLines (localOff : Int) (r : Release) : Except Err (List Str) :=
  let tag := r.tag_name.getD "(unknown)".data
  match pubOrCreated r with
  | none => .error .typeError
  | some pa =>
    match parse_iso8601 localOff pa with
    | .error e => .error e
    | .ok published =>
      let kind := if r.prerelease then "prerelease".data else "release".data
      let body := r.body.getD []
      let (breaking, features, other) := classify (extract_items body)
      let changelog := extract_changelog_url body
      let lines₀ := ["## ".data ++ tag ++ " (".data ++ dateIso published ++
        ", ".data ++ kind ++ ")".data]
      let lines₁ := match r.html_url with
        | some u =>
          if u ≠ [] then lines₀ ++ ["Source: [Release](".data ++ u ++ ")".data]
          else lines₀
        | none => lines₀
      let lines₂ := match changelog with
        | some c =>
          if c ≠ [] then
            lines₁ ++ ["Full Changelog: [Compare](".data ++ c ++ ")".data]
          else lines₁
        | none => lines₁
      let lines₃ := lines₂ ++ [[], "### Potential breaking changes (heuristic)".data]
      let lines₄ := lines₃ ++
        (if breaking ≠ [] then breaking.map bullet
         else ["- None detected from release notes".data])
      let lines₅ := lines₄ ++ [[], "### New features".data]
      let lines₆ := lines₅ ++
        (if features ≠ [] then features.map bullet
         else ["- None detected from release notes".data])
      let lines₇ :=
        if other ≠ [] then lines₆ ++ [[], "### Other changes".data] ++ other.map bullet
        else lines₆
      .ok lines₇

/-- `format_release` joined to a single string, as the source returns it. -/
def format_release (localOff : Int) (r : Release) : Except Err Str :=
  match formatReleaseLines localOff r with
  | .ok lines => .ok (joinNL lines)
  | .error e => .error e

/-- The filter loop of `main`: drafts are discarded, prereleases are discarded
unless included, releases with a falsy timestamp are discarded, and the rest
are kept when their parsed publish instant is not before the cutoff.  A parse
failure aborts the whole run (uncaught exception). -/
def selectReleases (localOff cutoff : Int) (includePre : Bool) :
    List Release → Except Err (List Release)
  | [] => .ok []
  | r :: rest =>
    if r.draft then selectReleases localOff cutoff includePre rest
    else if r.prerelease && !includePre then selectReleases localOff cutoff includePre rest
    else
      match pubOrCreated r with
      | none => selectReleases localOff cutoff includePre rest
      | some pa =>
        if pa = [] then selectReleases localOff cutoff includePre rest
        else
          match parse_iso8601 localOff pa with
          | .error e => .error e
          | .ok published =>
            match selectReleases localOff cutoff includePre rest with
            | .error e => .error e
            | .ok sel => .ok (if cutoff ≤ published then r :: sel else sel)

/-- Sort key of `selected.sort(...)`: the raw publish-timestamp string. -/
def sortKey (r : Release) : Str := (pubOrCreated r).getD []

/-- Python string comparison `<` (code-point lexicographic). -/
def pyStrLt : Str → Str → Bool
  | [], [] => false
  | [], _ :: _ => true
  | _ :: _, [] => false
  | c :: cs, d :: ds =>
    if c.toNat < d.toNat then true
    else if c.toNat = d.toNat then pyStrLt cs ds else false

/-- Stable descending insertion for `sortDesc`. -/
def insertDesc (r : Release) : List Release → List Release
  | [] => [r]
  | x :: xs =>
    if pyStrLt (sortKey r) (sortKey x) then x :: insertDesc r xs
    else r :: x :: xs

/-- `selected.sort(key=..., reverse=True)`: stable descending sort by the raw
timestamp string. -/
def sortDesc : List Release → List Release
  | [] => []
  | r :: rest => insertDesc r (sortDesc rest)

/-- The report header block built in `main` (including the trailing spacer). -/
def headerLines (repo : Str) (days : Nat) (now : Int) : List Str :=
  ["# Release Watch".data,
   "Repo: ".data ++ repo,
   "Checked: ".data ++ dateIso now ++ " (UTC)".data,
   "Window: last ".data ++ natDec days ++ " days".data,
   []]

/-- Formatting of every selected release, propagating the first error. -/
def formatAll (localOff : Int) : List Release → Except Err (List Str)
  | [] => .ok []
  | r :: rest =>
    match format_release localOff r with
    | .error e => .error e
    | .ok s =>
      match formatAll localOff rest with
      | .error e => .error e
      | .ok ss => .ok (s :: ss)

/-- `main` from the source file, with the ambient inputs made explicit:
`ghOutput` tells whether the `GITHUB_OUTPUT` signal destination is configured,
`localOff` is the local-time offset consumed by `astimezone`, `now` the
current UTC instant, and `releases` the fetched list.  The result is the
written report content, the lines appended to the signal file, and the exit
status; `.error` models an uncaught exception (non-zero process exit). -/
def mainRun (repo : Str) (days : Nat) (includePre ghOutput : Bool)
    (localOff now : Int) (releases : List Release) :
    Except Err (Str × List Str × Nat) :=
  let cutoff := now - (days : Int) * 86400
  match selectReleases localOff cutoff includePre releases with
  | .error e => .error e
  | .ok selected =>
    let sorted := sortDesc selected
    let header := headerLines repo days now
    if sorted.isEmpty then
      .ok (joinNL (header ++ ["No releases published in this window.".data]),
        (if ghOutput then ["has_releases=0\n".data] else []), 0)
    else
      match formatAll localOff sorted with
      | .error e => .error e
      | .ok sections =>
        .ok (joinNL (header ++ [joinSep "\n---\n".data sections]),
          (if ghOutput then ["has_releases=1\n".data] else []), 0)

/-- Wall-clock fields of a timestamp. -/
structure DT where
  y : Nat
  mo : Nat
  d : Nat
  h : Nat
  mi : Nat
  s : Nat

/-- Field validity: a calendar-valid four-digit-year date and a valid time of
day. -/
def ValidDT (f : DT) : Prop :=
  1 ≤ f.y ∧ f.y ≤ 9999 ∧ 1 ≤ f.mo ∧ f.mo ≤ 12 ∧ 1 ≤ f.d ∧
    f.d ≤ daysInMonth f.y f.mo ∧ f.h ≤ 23 ∧ f.mi ≤ 59 ∧ f.s ≤ 59

instance : DecidablePred ValidDT := fun _ => by unfold ValidDT; infer_instance

/-- The naive instant of a field record on the `naiveSecs` scale. -/
def naiveDT (f : DT) : Nat := naiveSecs f.y f.mo f.d f.h f.mi f.s

/-- Rendering of fields in the platform's timestamp shape, without designator:
`YYYY-MM-DDTHH:MM:SS`. -/
def renderTs (f : DT) : Str :=
  pad4 f.y ++ "-".data ++ pad2 f.mo ++ "-".data ++ pad2 f.d ++ "T".data ++
    pad2 f.h ++ ":".data ++ pad2 f.mi ++ ":".data ++ pad2 f.s

/-- Rendering of a `±HH:MM` UTC-offset suffix. -/
def renderOffStr (neg : Bool) (oh om : Nat) : Str :=
  (if neg then "-".data else "+".data) ++ pad2 oh ++ ":".data ++ pad2 om

/-- The signed minute value denoted by a rendered offset. -/
def offVal (neg : Bool) (oh om : Nat) : Int :=
  if neg then -((oh * 60 + om : Nat) : Int) else ((oh * 60 + om : Nat) : Int)

/-- The platform's timestamp format: a valid field record rendered with the
`Z` UTC designator, e.g. `2024-01-02T03:04:05Z`. -/
def renderZ (f : DT) : Str := renderTs f ++ "Z".data

/-- A string is a well-formed platform timestamp when it is the `Z`-designated
rendering of some valid field record. -/
def wfTs (s : Str) : Prop := ∃ f, ValidDT f ∧ s = renderZ f

/-- Lexicographic (chronological) order on wall-clock fields. -/
def fieldsLt (f g : DT) : Prop :=
  f.y < g.y ∨ (f.y = g.y ∧ (f.mo < g.mo ∨ (f.mo = g.mo ∧ (f.d < g.d ∨
    (f.d = g.d ∧ (f.h < g.h ∨ (f.h = g.h ∧ (f.mi < g.mi ∨
      (f.mi = g.mi ∧ f.s < g.s)))))))))

/-- The declarative survival predicate of the orchestrator's filter: not a
draft, prerelease only when included, a truthy publish-timestamp fallback, and
a parsed publish instant at or after the cutoff. -/
def survives (localOff cutoff : Int) (includePre : Bool) (r : Release) : Bool :=
  !r.draft && (!r.prerelease || includePre) &&
    (match pubOrCreated r with
     | none => false
     | some pa =>
       !pa.isEmpty &&
         (match parse_iso8601 localOff pa with
          | .ok published => decide (cutoff ≤ published)
          | .error _ => false))


/-- The head part of a formatted release block: the heading line, the optional
source-link line and the optional changelog-link line. -/
def headPart (r : Release) (published : Int) : List Str :=
  ["## ".data ++ r.tag_name.getD "(unknown)".data ++ " (".data ++
    dateIso published ++ ", ".data ++
    (if r.prerelease then "prerelease".data else "release".data) ++ ")".data] ++
  (match r.html_url with
   | some u => if u ≠ [] then ["Source: [Release](".data ++ u ++ ")".data] else []
   | none => []) ++
  (match extract_changelog_url (r.body.getD []) with
   | some c => if c ≠ [] then ["Full Changelog: [Compare](".data ++ c ++ ")".data] else []
   | none => [])

/-- One bullet per item, or the single `None detected` bullet when the
category is empty. -/
def bulletsOrNone (items : List Str) : List Str :=
  if items = [] then ["- None detected from release notes".data] else items.map bullet

/-- The `Other changes` section: subheading and bullets, present only when the
category is non-empty. -/
def otherSection (items : List Str) : List Str :=
  if items = [] then [] else [[], "### Other changes".data] ++ items.map bullet

/-! ## Helper lemmas -/

theorem classify_cons (item : Str) (rest : List Str) :
    classify (item :: rest) =
      if matchesAny BREAKING_KEYS item then
        (item :: (classify rest).1, (classify rest).2.1, (classify rest).2.2)
      else if matchesAny FEATURE_KEYS item then
        ((classify rest).1, item :: (classify rest).2.1, (classify rest).2.2)
      else ((classify rest).1, (classify rest).2.1, item :: (classify rest).2.2) := by
  simp only [classify]

theorem mem_classify_breaking {items : List Str} {x : Str}
    (h : x ∈ (classify items).1) : matchesAny BREAKING_KEYS x = true := by
  induction items with
  | nil => simp [classify] at h
  | cons item rest ih =>
    rw [classify_cons] at h
    by_cases hb : matchesAny BREAKING_KEYS item
    · simp [hb] at h
      rcases h with h | h
      · subst h; exact hb
      · exact ih h
    · by_cases hf : matchesAny FEATURE_KEYS item <;> simp [hb, hf] at h <;> exact ih h

theorem mem_classify_features {items : List Str} {x : Str}
    (h : x ∈ (classify items).2.1) :
    matchesAny BREAKING_KEYS x = false ∧ matchesAny FEATURE_KEYS x = true := by
  induction items with
  | nil => simp [classify] at h
  | cons item rest ih =>
    rw [classify_cons] at h
    by_cases hb : matchesAny BREAKING_KEYS item
    · simp [hb] at h; exact ih h
    · by_cases hf : matchesAny FEATURE_KEYS item
      · simp [hb, hf] at h
        rcases h with h | h
        · subst h; exact ⟨by simpa using hb, hf⟩
        · exact ih h
      · simp [hb, hf] at h; exact ih h

theorem mem_classify_other {items : List Str} {x : Str}
    (h : x ∈ (classify items).2.2) :
    matchesAny BREAKING_KEYS x = false ∧ matchesAny FEATURE_KEYS x = false := by
  induction items with
  | nil => simp [classify] at h
  | cons item rest ih =>
    rw [classify_cons] at h
    by_cases hb : matchesAny BREAKING_KEYS item
    · simp [hb] at h; exact ih h
    · by_cases hf : matchesAny FEATURE_KEYS item
      · simp [hb, hf] at h; exact ih h
      · simp [hb, hf] at h
        rcases h with h | h
        · subst h; exact ⟨by simpa using hb, by simpa using hf⟩
        · exact ih h

theorem classify_sublists (items : List Str) :
    (classify items).1.Sublist items ∧ (classify items).2.1.Sublist items ∧
      (classify items).2.2.Sublist items := by
  induction items with
  | nil => simp [classify]
  | cons item rest ih =>
    obtain ⟨ih1, ih2, ih3⟩ := ih
    rw [classify_cons]
    by_cases hb : matchesAny BREAKING_KEYS item
    · refine ⟨?_, ?_, ?_⟩
      · simpa [hb] using ih1.cons₂ item
      · simpa [hb] using ih2.cons item
      · simpa [hb] using ih3.cons item
    · by_cases hf : matchesAny FEATURE_KEYS item
      · refine ⟨?_, ?_, ?_⟩
        · simpa [hb, hf] using ih1.cons item
        · simpa [hb, hf] using ih2.cons₂ item
        · simpa [hb, hf] using ih3.cons item
      · refine ⟨?_, ?_, ?_⟩
        · simpa [hb, hf] using ih1.cons item
        · simpa [hb, hf] using ih2.cons item
        · simpa [hb, hf] using ih3.cons₂ item

theorem classify_perm (items : List Str) :
    ((classify items).1 ++ (classify items).2.1 ++ (classify items).2.2).Perm items := by
  induction items with
  | nil => simp [classify]
  | cons item rest ih =>
    rw [classify_cons]
    by_cases hb : matchesAny BREAKING_KEYS item
    · simpa [hb] using ih.cons item
    · by_cases hf : matchesAny FEATURE_KEYS item
      · simp only [hb, hf, Bool.false_eq_true, if_true, if_false]
        exact ((List.perm_middle).append_right (classify rest).2.2).trans (ih.cons item)
      · simp only [hb, hf, Bool.false_eq_true, if_true, if_false]
        exact (List.perm_middle).trans (ih.cons item)

/-! ## C1 -/

/-- C1: `classify` partitions its input: each of the three returned lists is a
subsequence of the input (hence preserves the items' original relative order),
the three lengths sum to the input length, the concatenation is a permutation
of the input (equal as multisets, so no item is dropped or duplicated), and no
item value appears in two different lists. -/
theorem classify_is_partition (items : List Str) :
    (classify items).1.Sublist items ∧
    (classify items).2.1.Sublist items ∧
    (classify items).2.2.Sublist items ∧
    (classify items).1.length + (classify items).2.1.length +
      (classify items).2.2.length = items.length ∧
    ((classify items).1 ++ (classify items).2.1 ++ (classify items).2.2).Perm items ∧
    (∀ x : Str,
      ¬(x ∈ (classify items).1 ∧ x ∈ (classify items).2.1) ∧
      ¬(x ∈ (classify items).1 ∧ x ∈ (classify items).2.2) ∧
      ¬(x ∈ (classify items).2.1 ∧ x ∈ (classify items).2.2)) := by
  obtain ⟨h1, h2, h3⟩ := classify_sublists items
  have hp := classify_perm items
  refine ⟨h1, h2, h3, ?_, hp, ?_⟩
  · have := hp.length_eq
    simpa [List.length_append, Nat.add_assoc] using this
  · intro x
    refine ⟨?_, ?_, ?_⟩
    · rintro ⟨hx1, hx2⟩
      have := mem_classify_breaking hx1
      have := (mem_classify_features hx2).1
      simp_all
    · rintro ⟨hx1, hx2⟩
      have := mem_classify_breaking hx1
      have := (mem_classify_other hx2).1
      simp_all
    · rintro ⟨hx1, hx2⟩
      have := (mem_classify_features hx1).2
      have := (mem_classify_other hx2).2
      simp_all

/-! ## C2 -/

theorem breaking_mem_classify {items : List Str} {item : Str} (hmem : item ∈ items)
    (hb : matchesAny BREAKING_KEYS item = true) : item ∈ (classify items).1 := by
  induction items with
  | nil => simp at hmem
  | cons x rest ih =>
    rw [classify_cons]
    rcases List.mem_cons.mp hmem with h | h
    · subst h
      simp [hb]
    · by_cases hxb : matchesAny BREAKING_KEYS x
      · simp [hxb]
        exact Or.inr (ih h)
      · by_cases hxf : matchesAny FEATURE_KEYS x <;> simp [hxb, hxf] <;> exact ih h

theorem neither_mem_classify {items : List Str} {item : Str} (hmem : item ∈ items)
    (hb : matchesAny BREAKING_KEYS item = false)
    (hf : matchesAny FEATURE_KEYS item = false) : item ∈ (classify items).2.2 := by
  induction items with
  | nil => simp at hmem
  | cons x rest ih =>
    rw [classify_cons]
    rcases List.mem_cons.mp hmem with h | h
    · subst h
      simp [hb, hf]
    · by_cases hxb : matchesAny BREAKING_KEYS x
      · simp [hxb]
        exact ih h
      · by_cases hxf : matchesAny FEATURE_KEYS x
        · simp [hxb, hxf]
          exact ih h
        · simp [hxb, hxf]
          exact Or.inr (ih h)

/-- C2: the breaking check precedes the feature check: any input item whose
lower-cased form contains both a breaking keyword and a feature keyword is
placed in the breaking list; an item matching neither keyword list is placed
in the other list; and concretely, `"add auth support"` (which matches both
lists) is classified as breaking. -/
theorem classify_breaking_precedence :
    (∀ (items : List Str) (item : Str), item ∈ items →
      matchesAny BREAKING_KEYS item = true → matchesAny FEATURE_KEYS item = true →
      item ∈ (classify items).1) ∧
    (∀ (items : List Str) (item : Str), item ∈ items →
      matchesAny BREAKING_KEYS item = false → matchesAny FEATURE_KEYS item = false →
      item ∈ (classify items).2.2) ∧
    matchesAny BREAKING_KEYS "add auth support".data = true ∧
    matchesAny FEATURE_KEYS "add auth support".data = true ∧
    classify ["add auth support".data] = (["add auth support".data], [], []) := by
  refine ⟨?_, ?_, by decide, by decide, by decide⟩
  · intro items item hmem hb _
    exact breaking_mem_classify hmem hb
  · intro items item hmem hb hf
    exact neither_mem_classify hmem hb hf

/-- Witness for `classify_breaking_precedence` at concrete inputs: the
both-matching item `"add auth support"` lands in the breaking list and the
neither-matching item `"fix typo"` lands in the other list. -/
theorem classify_breaking_precedence_witness :
    "add auth support".data ∈ (classify ["add auth support".data, "fix typo".data]).1 ∧
    "fix typo".data ∈ (classify ["add auth support".data, "fix typo".data]).2.2 :=
  ⟨classify_breaking_precedence.1 _ _ (by decide) (by decide) (by decide),
   classify_breaking_precedence.2.1 _ _ (by decide) (by decide) (by decide)⟩

/-! ## C3 -/

theorem extractItemsGo_eq_filterMap (lines : List Str) :
    extractItemsGo lines = lines.filterMap itemOfLine := by
  induction lines with
  | nil => simp [extractItemsGo]
  | cons line rest ih =>
    simp only [extractItemsGo, itemOfLine, List.filterMap_cons]
    by_cases hq : ("*".data.isPrefixOf (pyStrip line) || "-".data.isPrefixOf (pyStrip line)) = true
    · by_cases he : pyStrip (subMarkers (pyStrip line)) = []
      · simp [hq, he, ih]
      · simp [hq, he, ih]
    · simp [hq, ih]

theorem dropWhile_head_false {α} (p : α → Bool) :
    ∀ (l : List α) {c : α} {rest : List α}, l.dropWhile p = c :: rest → p c = false := by
  intro l
  induction l with
  | nil =>
    intro c rest h
    simp [List.dropWhile] at h
  | cons a l ih =>
    intro c rest h
    rw [List.dropWhile_cons] at h
    by_cases hpa : p a
    · simp [hpa] at h
      exact ih h
    · simp [hpa] at h
      obtain ⟨rfl, _⟩ := h
      simpa using hpa

theorem pyStrip_idem (l : Str) : pyStrip (pyStrip l) = pyStrip l := by
  show List.rdropWhile isSpace
      ((List.rdropWhile isSpace (l.dropWhile isSpace)).dropWhile isSpace)
    = List.rdropWhile isSpace (l.dropWhile isSpace)
  have key : (List.rdropWhile isSpace (l.dropWhile isSpace)).dropWhile isSpace
      = List.rdropWhile isSpace (l.dropWhile isSpace) := by
    obtain ⟨t, ht⟩ := List.rdropWhile_prefix isSpace (l.dropWhile isSpace)
    cases hY : List.rdropWhile isSpace (l.dropWhile isSpace) with
    | nil => simp
    | cons c ys =>
      have hX : l.dropWhile isSpace = c :: (ys ++ t) := by
        rw [← ht, hY]
        simp
      have hc : isSpace c = false := dropWhile_head_false isSpace l hX
      simp [List.dropWhile_cons, hc]
  rw [key, List.rdropWhile_idempotent]

theorem itemOfLine_some {line item : Str} (h : itemOfLine line = some item) :
    item ≠ [] ∧ pyStrip item = item := by
  unfold itemOfLine at h
  by_cases hq : ("*".data.isPrefixOf (pyStrip line) || "-".data.isPrefixOf (pyStrip line)) = true
  · by_cases he : pyStrip (subMarkers (pyStrip line)) = []
    · simp [hq, he] at h
    · simp [hq, he] at h
      subst h
      exact ⟨he, pyStrip_idem _⟩
  · simp [hq] at h

/-- C3 counterexample: on the body `"-x"` (a qualifying line whose marker run
is not followed by whitespace) the code keeps the marker, returning `["-x"]`,
while the claim's unconditional stripping of the leading marker characters and
following whitespace yields `["x"]`; the claim as stated is therefore false. -/
theorem extract_items_marker_counterexample :
    extract_items "-x".data = ["-x".data] ∧
    extract_items_claim "-x".data = ["x".data] ∧
    extract_items "-x".data ≠ extract_items_claim "-x".data := by
  refine ⟨by decide, by decide, by decide⟩

/-- C3 (amended): `extract_items` returns exactly, in source line order, the
per-line results of: trim the line; keep it only when it begins with `*` or
`-`; remove the leading marker run together with the whitespace following it
only when at least one whitespace character immediately follows the marker run
(`subMarkers`, the semantics of `re.sub(r"^[\*-]+\s+", ...)`) — otherwise the
trimmed line is kept unchanged; trim again and discard empty results.  Every
extracted item is consequently non-empty and unchanged by further trimming. -/
theorem extract_items_characterization (body : Str) :
    extract_items body = (splitlines body).filterMap itemOfLine ∧
    ∀ item ∈ extract_items body, item ≠ [] ∧ pyStrip item = item := by
  refine ⟨extractItemsGo_eq_filterMap _, ?_⟩
  intro item hmem
  rw [extract_items, extractItemsGo_eq_filterMap] at hmem
  obtain ⟨line, _, hline⟩ := List.mem_filterMap.mp hmem
  exact itemOfLine_some hline

/-- Witness for `extract_items_characterization` at a concrete body. -/
theorem extract_items_characterization_witness :
    "foo".data ≠ ([] : Str) ∧ pyStrip "foo".data = "foo".data :=
  (extract_items_characterization "- foo\nplain".data).2 "foo".data (by decide)

/-! ## C8 -/

theorem extractChangelogUrlGo_eq (lines : List Str) :
    extractChangelogUrlGo lines = (lines.filterMap urlOfLine).head? := by
  induction lines with
  | nil => simp [extractChangelogUrlGo]
  | cons line rest ih =>
    simp only [extractChangelogUrlGo, urlOfLine, List.filterMap_cons]
    by_cases hq : (strContains line "Full Changelog".data &&
        strContains line "http".data) = true
    · cases hm : reSearchHttp line with
      | none => simp [hq, hm, ih]
      | some m => simp [hq, hm]
    · simp [hq, ih]

/-- C8 counterexample: in a body whose first line containing both
`"Full Changelog"` and `"http"` carries no `http(s)://`-prefixed token, the
code skips that line and extracts the URL from a later qualifying line,
whereas the claim's procedure (commit to the first such line) yields nothing;
the claim as stated is therefore false. -/
theorem changelog_url_first_line_counterexample :
    extract_changelog_url
        "Full Changelog moved to the http docs\nFull Changelog: https://example.com/x".data
      = some "https://example.com/x".data ∧
    extract_changelog_url_claim
        "Full Changelog moved to the http docs\nFull Changelog: https://example.com/x".data
      = none ∧
    extract_changelog_url
        "Full Changelog moved to the http docs\nFull Changelog: https://example.com/x".data
      ≠ extract_changelog_url_claim
        "Full Changelog moved to the http docs\nFull Changelog: https://example.com/x".data := by
  refine ⟨by decide, by decide, by decide⟩

/-- C8 (amended): the comparison-URL extractor returns the token of the FIRST
line that contains both `"Full Changelog"` and `"http"` AND on which the
regex finds an `http(s)://`-prefixed token with at least one non-whitespace
character after the protocol prefix (a qualifying line without such a token
is skipped and scanning continues); the token stops at whitespace and has
trailing newline/carriage-return characters stripped, and the result is none
when no line yields a token.  In particular the body
`"Full Changelog: https://example.com/compare/v1...v2 "` yields exactly
`"https://example.com/compare/v1...v2"`, a bare `https://` followed by
whitespace is no match at all, and the search continues past a bare
`http://` to a later real token on the same line. -/
theorem extract_changelog_url_characterization :
    (∀ body : Str,
      extract_changelog_url body = ((splitlines body).filterMap urlOfLine).head?) ∧
    extract_changelog_url "Full Changelog: https://example.com/compare/v1...v2 ".data
      = some "https://example.com/compare/v1...v2".data ∧
    extract_changelog_url "Full Changelog: https:// (moved)".data = none ∧
    extract_changelog_url "Full Changelog: http:// http://x".data
      = some "http://x".data := by
  exact ⟨fun body => extractChangelogUrlGo_eq _, by decide, by decide, by decide⟩

/-! ## C5 / C10 groundwork -/

theorem selectReleases_ok_eq (lo cutoff : Int) (inc : Bool) :
    ∀ (rels sel : List Release), selectReleases lo cutoff inc rels = .ok sel →
      sel = rels.filter (survives lo cutoff inc) := by
  intro rels
  induction rels with
  | nil =>
    intro sel h
    simp only [selectReleases, Except.ok.injEq] at h
    simp [← h]
  | cons r rest ih =>
    intro sel h
    simp only [selectReleases] at h
    by_cases hd : r.draft = true
    · rw [if_pos hd] at h
      rw [ih sel h, List.filter_cons]
      simp [survives, hd]
    · rw [if_neg hd] at h
      by_cases hp : (r.prerelease && !inc) = true
      · rw [if_pos hp] at h
        rw [ih sel h, List.filter_cons]
        obtain ⟨hp1, hp2⟩ := Bool.and_eq_true_iff.mp hp
        have hinc : inc = false := by simpa using hp2
        simp [survives, hd, hp1, hinc]
      · rw [if_neg hp] at h
        cases hpc : pubOrCreated r with
        | none =>
          rw [hpc] at h
          rw [ih sel h, List.filter_cons]
          simp only [Bool.not_eq_true] at hd
          simp [survives, hd, hpc]
        | some pa =>
          rw [hpc] at h
          have h2 : (if pa = [] then selectReleases lo cutoff inc rest
              else match parse_iso8601 lo pa with
                | Except.error e => Except.error e
                | Except.ok published =>
                  match selectReleases lo cutoff inc rest with
                  | Except.error e => Except.error e
                  | Except.ok sel2 =>
                    Except.ok (if cutoff ≤ published then r :: sel2 else sel2)) =
              Except.ok sel := h
          by_cases hpa : pa = []
          · rw [if_pos hpa] at h2
            rw [ih sel h2, List.filter_cons]
            simp only [Bool.not_eq_true] at hd
            simp [survives, hd, hpc, hpa]
          · rw [if_neg hpa] at h2
            cases hpar : parse_iso8601 lo pa with
            | error e =>
              rw [hpar] at h2
              simp at h2
            | ok published =>
              rw [hpar] at h2
              cases hsel : selectReleases lo cutoff inc rest with
              | error e =>
                rw [hsel] at h2
                simp at h2
              | ok sel2 =>
                rw [hsel] at h2
                simp only [Except.ok.injEq] at h2
                subst h2
                rw [ih sel2 hsel, List.filter_cons]
                simp only [Bool.not_eq_true] at hd
                have hpaE : pa.isEmpty = false := by
                  cases pa
                  · simp at hpa
                  · simp
                by_cases hcut : cutoff ≤ published
                · have hq : survives lo cutoff inc r = true := by
                    simp [survives, hd, hpc, hpa, hpar, hcut, hpaE]
                    cases hpre : r.prerelease
                    · simp
                    · simp [hpre] at hp
                      simp [hp]
                  simp [hq, hcut]
                · have hq : survives lo cutoff inc r = false := by
                    simp [survives, hd, hpc, hpar, hcut, hpaE]
                  simp [hq, hcut]

/-! ## C10 -/

theorem survives_pub_nonempty {lo cutoff : Int} {inc : Bool} {r : Release}
    (h : survives lo cutoff inc r = true) :
    ∃ s, pubOrCreated r = some s ∧ s ≠ [] := by
  unfold survives at h
  cases hpc : pubOrCreated r with
  | none => rw [hpc] at h; simp at h
  | some pa =>
    rw [hpc] at h
    refine ⟨pa, rfl, ?_⟩
    intro hnil
    subst hnil
    simp at h

/-- C10: `format_release` fails (with the embedded counterpart of the uncaught
`parse_iso8601(None)` exception) on any release record whose `published_at`
and `created_at` are both absent or null; and every release surviving the
orchestrator's filter has a non-empty publish-timestamp fallback, which is
exactly the precondition making that error branch unreachable in the
pipeline. -/
theorem format_release_requires_timestamp :
    (∀ (lo : Int) (r : Release), r.published_at = none → r.created_at = none →
      format_release lo r = .error .typeError) ∧
    (∀ (lo cutoff : Int) (inc : Bool) (rels sel : List Release),
      selectReleases lo cutoff inc rels = .ok sel →
      ∀ r ∈ sel, ∃ s, pubOrCreated r = some s ∧ s ≠ []) := by
  constructor
  · intro lo r hpub hcre
    have hpc : pubOrCreated r = none := by
      unfold pubOrCreated
      rw [hpub, hcre]
    unfold format_release formatReleaseLines
    rw [hpc]
  · intro lo cutoff inc rels sel h r hmem
    rw [selectReleases_ok_eq lo cutoff inc rels sel h] at hmem
    exact survives_pub_nonempty (List.of_mem_filter hmem)

/-- Witness for `format_release_requires_timestamp` at concrete inputs: a
release with both timestamps missing makes the formatter fail, and the
surviving set of a concrete run satisfies the precondition. -/
theorem format_release_requires_timestamp_witness :
    format_release 0 { tag_name := some "v1".data } = .error .typeError ∧
    ∃ s, pubOrCreated { published_at := some "2024-01-02T03:04:05Z".data } = some s ∧
      s ≠ [] :=
  ⟨format_release_requires_timestamp.1 0 { tag_name := some "v1".data } rfl rfl,
   format_release_requires_timestamp.2 0 0 false
     [{ published_at := some "2024-01-02T03:04:05Z".data }]
     [{ published_at := some "2024-01-02T03:04:05Z".data }] (by rfl)
     { published_at := some "2024-01-02T03:04:05Z".data } (List.mem_singleton.mpr rfl)⟩

/-! ## C5 -/

theorem format_release_ok_of_parse {lo : Int} {r : Release} {pa : Str} {published : Int}
    (hpc : pubOrCreated r = some pa) (hpar : parse_iso8601 lo pa = .ok published) :
    ∃ sec, format_release lo r = .ok sec := by
  simp only [format_release, formatReleaseLines, hpc, hpar]
  exact ⟨_, rfl⟩

/-- C5: the orchestrator's surviving set is exactly the fetched list filtered
by `survives` — not a draft, not a prerelease unless inclusion is on, a truthy
`published_at`-or-`created_at` timestamp, and a parsed publish instant not
strictly before `now − days`; and in the scenario of one draft, one
prerelease (inclusion off) and one in-window normal release, the report
contains exactly the normal release's section and presence is signaled
(`has_releases=1`). -/
theorem select_releases_spec :
    (∀ (lo cutoff : Int) (inc : Bool) (rels sel : List Release),
      selectReleases lo cutoff inc rels = .ok sel →
      sel = rels.filter (survives lo cutoff inc)) ∧
    (∀ (repo : Str) (days : Nat) (lo now : Int) (d p n : Release) (pa : Str)
      (published : Int),
      d.draft = true → p.prerelease = true → p.draft = false →
      n.draft = false → n.prerelease = false →
      pubOrCreated n = some pa → pa ≠ [] →
      parse_iso8601 lo pa = .ok published → now - (days : Int) * 86400 ≤ published →
      ∃ sec, format_release lo n = .ok sec ∧
        mainRun repo days false true lo now [d, p, n] =
          .ok (joinNL (headerLines repo days now ++ [sec]),
               ["has_releases=1\n".data], 0)) := by
  constructor
  · exact selectReleases_ok_eq
  · intro repo days lo now d p n pa published hdd hpp hpd hnd hnp hpc hpa hpar hcut
    obtain ⟨sec, hsec⟩ := format_release_ok_of_parse hpc hpar
    refine ⟨sec, hsec, ?_⟩
    have hsel : selectReleases lo (now - (days : Int) * 86400) false [d, p, n] =
        .ok [n] := by
      simp only [selectReleases, hdd, hpp, hpd, hnd, hnp, hpc, hpar, if_true]
      simp [hpa, hcut]
    simp only [mainRun, hsel, sortDesc, insertDesc, formatAll, hsec, joinSep,
      List.isEmpty_cons, if_false, Bool.false_eq_true, if_true]

/-- Witness for `select_releases_spec` at concrete releases: the draft and the
prerelease are filtered out, the normal in-window release is reported and
presence is signaled. -/
theorem select_releases_spec_witness :
    [({ published_at := some "2024-01-02T03:04:05Z".data, draft := true } : Release),
     { published_at := some "2024-01-02T03:04:05Z".data, prerelease := true },
     { published_at := some "2024-01-02T03:04:05Z".data }].filter
        (survives 0 (63839761445 - 7 * 86400) false) =
      [{ published_at := some "2024-01-02T03:04:05Z".data }] ∧
    ∃ sec, format_release 0 { published_at := some "2024-01-02T03:04:05Z".data } = .ok sec ∧
      mainRun "o/r".data 7 false true 0 63839761445
          [{ published_at := some "2024-01-02T03:04:05Z".data, draft := true },
           { published_at := some "2024-01-02T03:04:05Z".data, prerelease := true },
           { published_at := some "2024-01-02T03:04:05Z".data }] =
        .ok (joinNL (headerLines "o/r".data 7 63839761445 ++ [sec]),
             ["has_releases=1\n".data], 0) := by
  constructor
  · exact (select_releases_spec.1 0 (63839761445 - 7 * 86400) false
      [{ published_at := some "2024-01-02T03:04:05Z".data, draft := true },
       { published_at := some "2024-01-02T03:04:05Z".data, prerelease := true },
       { published_at := some "2024-01-02T03:04:05Z".data }]
      [{ published_at := some "2024-01-02T03:04:05Z".data }] (by rfl)).symm
  · exact select_releases_spec.2 "o/r".data 7 0 63839761445 _ _ _
      "2024-01-02T03:04:05Z".data 63839761445 rfl rfl rfl rfl rfl rfl
      (by decide) (by rfl) (by decide)

/-! ## C6 -/

/-- C6: when no release survives the filter, the orchestrator writes exactly
the header block followed by the single line
`"No releases published in this window."`, appends `has_releases=0` to the
signal file exactly when a signal destination is configured, and exits with
status 0. -/
theorem main_no_releases_report :
    ∀ (repo : Str) (days : Nat) (inc gh : Bool) (lo now : Int) (rels : List Release),
      selectReleases lo (now - (days : Int) * 86400) inc rels = .ok [] →
      mainRun repo days inc gh lo now rels =
        .ok (joinNL (headerLines repo days now ++
              ["No releases published in this window.".data]),
             (if gh then ["has_releases=0\n".data] else []), 0) := by
  intro repo days inc gh lo now rels h
  simp only [mainRun, h, sortDesc, List.isEmpty_nil, if_true]

/-- Witness for `main_no_releases_report`: a concrete empty fetch with the
signal destination configured. -/
theorem main_no_releases_report_witness :
    mainRun "o/r".data 7 false true 0 63839761445 [] =
      .ok (joinNL (headerLines "o/r".data 7 63839761445 ++
            ["No releases published in this window.".data]),
           (if true then ["has_releases=0\n".data] else []), 0) :=
  main_no_releases_report "o/r".data 7 false true 0 63839761445 [] (by rfl)

/-! ## C4 -/

theorem formatReleaseLines_ok_decomp {lo : Int} {r : Release} {out : List Str}
    (h : formatReleaseLines lo r = .ok out) :
    ∃ published : Int, out =
      headPart r published ++
      [[], "### Potential breaking changes (heuristic)".data] ++
      bulletsOrNone (classify (extract_items (r.body.getD []))).1 ++
      [[], "### New features".data] ++
      bulletsOrNone (classify (extract_items (r.body.getD []))).2.1 ++
      otherSection (classify (extract_items (r.body.getD []))).2.2 := by
  cases hpc : pubOrCreated r with
  | none => simp [formatReleaseLines, hpc] at h
  | some pa =>
    cases hpar : parse_iso8601 lo pa with
    | error e => simp [formatReleaseLines, hpc, hpar] at h
    | ok published =>
      refine ⟨published, ?_⟩
      rcases hcl : classify (extract_items (r.body.getD [])) with ⟨b, f, o⟩
      simp only [formatReleaseLines, hpc, hpar, hcl, Except.ok.injEq] at h
      subst h
      unfold headPart bulletsOrNone otherSection
      cases hu : r.html_url with
      | none =>
        cases hc : extract_changelog_url (r.body.getD []) with
        | none =>
          by_cases hb : b = [] <;> by_cases hf : f = [] <;> by_cases ho : o = [] <;>
            simp [hb, hf, ho, List.append_assoc]
        | some c =>
          by_cases hcc : c = [] <;> by_cases hb : b = [] <;> by_cases hf : f = [] <;>
            by_cases ho : o = [] <;> simp [hcc, hb, hf, ho, List.append_assoc]
      | some u =>
        cases hc : extract_changelog_url (r.body.getD []) with
        | none =>
          by_cases huu : u = [] <;> by_cases hb : b = [] <;> by_cases hf : f = [] <;>
            by_cases ho : o = [] <;> simp [huu, hb, hf, ho, List.append_assoc]
        | some c =>
          by_cases huu : u = [] <;> by_cases hcc : c = [] <;> by_cases hb : b = [] <;>
            by_cases hf : f = [] <;> by_cases ho : o = [] <;>
            simp [huu, hcc, hb, hf, ho, List.append_assoc]

theorem bullet_ne_other (x : Str) : bullet x ≠ "### Other changes".data := by
  simp [bullet]

theorem headPart_mem_ne_other {r : Release} {pub : Int} {x : Str}
    (hx : x ∈ headPart r pub) : x ≠ "### Other changes".data := by
  intro heq
  subst heq
  unfold headPart at hx
  cases hu : r.html_url <;>
    cases hc : extract_changelog_url (r.body.getD []) <;>
    simp only [hu, hc] at hx <;>
    split_ifs at hx <;>
    simp at hx

theorem other_heading_not_mem_mandatory {r : Release} {pub : Int} {b f : List Str} :
    "### Other changes".data ∉
      (headPart r pub ++ [[], "### Potential breaking changes (heuristic)".data] ++
       bulletsOrNone b ++ [[], "### New features".data] ++ bulletsOrNone f) := by
  intro hmem
  simp only [List.mem_append] at hmem
  rcases hmem with ((((hm | hm) | hm) | hm) | hm)
  · exact headPart_mem_ne_other hm rfl
  · simp at hm
  · unfold bulletsOrNone at hm
    split_ifs at hm
    · simp at hm
    · obtain ⟨x, _, hx⟩ := List.mem_map.mp hm
      exact bullet_ne_other x hx
  · simp at hm
  · unfold bulletsOrNone at hm
    split_ifs at hm
    · simp at hm
    · obtain ⟨x, _, hx⟩ := List.mem_map.mp hm
      exact bullet_ne_other x hx

/-- C4: a successfully formatted release block decomposes as the head lines
followed by the mandatory `Potential breaking changes (heuristic)` and
`New features` subheadings — each followed by one bullet per item, or the
single `None detected` bullet when that category is empty — and the
`Other changes` subheading appears in the block exactly when the
other-category is non-empty; for a release with an absent or empty body the
classification is empty, both mandatory subheadings carry the `None detected`
bullet, and no `Other changes` subheading is emitted. -/
theorem format_release_block_structure (lo : Int) (r : Release) (out : List Str)
    (h : formatReleaseLines lo r = .ok out) :
    (∃ published : Int, out =
      headPart r published ++
      [[], "### Potential breaking changes (heuristic)".data] ++
      bulletsOrNone (classify (extract_items (r.body.getD []))).1 ++
      [[], "### New features".data] ++
      bulletsOrNone (classify (extract_items (r.body.getD []))).2.1 ++
      otherSection (classify (extract_items (r.body.getD []))).2.2) ∧
    ("### Other changes".data ∈ out ↔
      (classify (extract_items (r.body.getD []))).2.2 ≠ []) ∧
    ((r.body = none ∨ r.body = some []) →
      classify (extract_items (r.body.getD [])) = ([], [], []) ∧
      "### Other changes".data ∉ out ∧
      ∃ published : Int, out =
        headPart r published ++
        [[], "### Potential breaking changes (heuristic)".data,
         "- None detected from release notes".data,
         [], "### New features".data,
         "- None detected from release notes".data]) := by
  obtain ⟨published, hdec⟩ := formatReleaseLines_ok_decomp h
  have hiff : "### Other changes".data ∈ out ↔
      (classify (extract_items (r.body.getD []))).2.2 ≠ [] := by
    rw [hdec]
    constructor
    · intro hmem
      intro ho
      rw [ho] at hmem
      simp only [otherSection, if_pos, List.append_nil] at hmem
      exact other_heading_not_mem_mandatory hmem
    · intro ho
      simp [otherSection, ho]
  refine ⟨⟨published, hdec⟩, hiff, ?_⟩
  intro hbody
  have hcl : classify (extract_items (r.body.getD [])) = ([], [], []) := by
    rcases hbody with hb | hb <;> rw [hb] <;> rfl
  refine ⟨hcl, ?_, ⟨published, ?_⟩⟩
  · rw [hiff, hcl]
    simp
  · rw [hdec, hcl]
    simp [bulletsOrNone, otherSection]

/-- Witness for `format_release_block_structure` at a concrete empty-body
release. -/
theorem format_release_block_structure_witness :
    ∃ out : List Str,
      formatReleaseLines 0
        { tag_name := some "v1".data
          published_at := some "2024-01-02T03:04:05Z".data
          body := some [] } = .ok out ∧
      "### Other changes".data ∉ out := by
  refine ⟨_, rfl, ?_⟩
  exact (format_release_block_structure 0
    { tag_name := some "v1".data
      published_at := some "2024-01-02T03:04:05Z".data
      body := some [] } _ rfl).2.2 (Or.inr rfl) |>.2.1

/-! ## C9 -/

theorem isDigit_dChar {k : Nat} (h : k < 10) : (dChar k).isDigit = true := by
  interval_cases k <;> decide

theorem dv_dChar {k : Nat} (h : k < 10) : dv (dChar k) = k := by
  interval_cases k <;> decide

theorem dChar_ne_Z (k : Nat) : dChar k ≠ 'Z' := by
  unfold dChar
  split <;> decide

theorem parseOff_nil : parseOff [] = some none := rfl

theorem parseOff_render (neg : Bool) (oh om : Nat) (hh : oh ≤ 23) (hm : om ≤ 59) :
    parseOff (renderOffStr neg oh om) = some (some (offVal neg oh om)) := by
  have h1 : oh / 10 < 10 := by omega
  have h2 : oh % 10 < 10 := by omega
  have h3 : om / 10 < 10 := by omega
  have h4 : om % 10 < 10 := by omega
  cases neg with
  | false =>
    simp only [renderOffStr, pad2, if_false, Bool.false_eq_true, List.cons_append,
      List.nil_append, parseOff]
    simp only [isDigit_dChar h1, isDigit_dChar h2, isDigit_dChar h3, isDigit_dChar h4,
      dv_dChar h1, dv_dChar h2, dv_dChar h3, dv_dChar h4]
    have hoh : 10 * (oh / 10) + oh % 10 = oh := by omega
    have hom : 10 * (om / 10) + om % 10 = om := by omega
    rw [hoh, hom]
    simp [offVal, hh, hm]
  | true =>
    simp only [renderOffStr, pad2, if_true, List.cons_append, List.nil_append, parseOff]
    simp only [isDigit_dChar h1, isDigit_dChar h2, isDigit_dChar h3, isDigit_dChar h4,
      dv_dChar h1, dv_dChar h2, dv_dChar h3, dv_dChar h4]
    have hoh : 10 * (oh / 10) + oh % 10 = oh := by omega
    have hom : 10 * (om / 10) + om % 10 = om := by omega
    rw [hoh, hom]
    simp [offVal, hh, hm]

theorem daysInMonth_le_31 (y m : Nat) : daysInMonth y m ≤ 31 := by
  unfold daysInMonth
  split <;> first
    | decide
    | (split <;> decide)

theorem fromisoformat_render (f : DT) (hf : ValidDT f) (rest : Str) (off : Option Int)
    (hrest : parseOff rest = some off) :
    fromisoformat (renderTs f ++ rest) = some (naiveDT f, off) := by
  obtain ⟨h1, h2, h3, h4, h5, h6, h7, h8, h9⟩ := hf
  have hd31 : f.d ≤ 31 := le_trans h6 (daysInMonth_le_31 _ _)
  have hy : f.y < 10000 := by omega
  have d1 : f.y / 1000 < 10 := by omega
  have d2 : f.y / 100 % 10 < 10 := by omega
  have d3 : f.y / 10 % 10 < 10 := by omega
  have d4 : f.y % 10 < 10 := by omega
  have d5 : f.mo / 10 < 10 := by omega
  have d6 : f.mo % 10 < 10 := by omega
  have d7 : f.d / 10 < 10 := by omega
  have d8 : f.d % 10 < 10 := by omega
  have d9 : f.h / 10 < 10 := by omega
  have d10 : f.h % 10 < 10 := by omega
  have d11 : f.mi / 10 < 10 := by omega
  have d12 : f.mi % 10 < 10 := by omega
  have d13 : f.s / 10 < 10 := by omega
  have d14 : f.s % 10 < 10 := by omega
  simp only [renderTs, pad4, pad2, List.cons_append, List.nil_append]
  simp only [fromisoformat, isDigit_dChar d1, isDigit_dChar d2, isDigit_dChar d3,
    isDigit_dChar d4, isDigit_dChar d5, isDigit_dChar d6, isDigit_dChar d7,
    isDigit_dChar d8, isDigit_dChar d9, isDigit_dChar d10, isDigit_dChar d11,
    isDigit_dChar d12, isDigit_dChar d13, isDigit_dChar d14,
    dv_dChar d1, dv_dChar d2, dv_dChar d3, dv_dChar d4, dv_dChar d5, dv_dChar d6,
    dv_dChar d7, dv_dChar d8, dv_dChar d9, dv_dChar d10, dv_dChar d11, dv_dChar d12,
    dv_dChar d13, dv_dChar d14]
  have hyv : 1000 * (f.y / 1000) + 100 * (f.y / 100 % 10) + 10 * (f.y / 10 % 10) +
      f.y % 10 = f.y := by omega
  have hmov : 10 * (f.mo / 10) + f.mo % 10 = f.mo := by omega
  have hdv : 10 * (f.d / 10) + f.d % 10 = f.d := by omega
  have hhv : 10 * (f.h / 10) + f.h % 10 = f.h := by omega
  have hmiv : 10 * (f.mi / 10) + f.mi % 10 = f.mi := by omega
  have hsv : 10 * (f.s / 10) + f.s % 10 = f.s := by omega
  rw [hyv, hmov, hdv, hhv, hmiv, hsv]
  simp only [h1, h3, h4, h5, h6, h7, h8, h9, hrest]
  simp [naiveDT, h1, h3, h4, h5, h6, h7, h8, h9]

theorem replaceZ_append (a b : Str) : replaceZ (a ++ b) = replaceZ a ++ replaceZ b := by
  simp [replaceZ]

theorem replaceZ_no_z {l : Str} (h : ∀ c ∈ l, c ≠ 'Z') : replaceZ l = l := by
  induction l with
  | nil => rfl
  | cons c rest ih =>
    have hc : c ≠ 'Z' := h c (List.mem_cons_self c rest)
    have hr : replaceZ rest = rest := ih fun x hx => h x (List.mem_cons_of_mem c hx)
    show ((c :: rest).map fun x => if x = 'Z' then "+00:00".data else [x]).flatten = c :: rest
    rw [List.map_cons, List.flatten_cons, if_neg hc]
    show c :: replaceZ rest = c :: rest
    rw [hr]

theorem renderTs_no_z (f : DT) : ∀ c ∈ renderTs f, c ≠ 'Z' := by
  intro c hc
  simp only [renderTs, pad4, pad2, List.cons_append, List.nil_append, List.mem_cons,
    List.not_mem_nil, or_false] at hc
  rcases hc with h | h | h | h | h | h | h | h | h | h | h | h | h | h | h | h | h | h | h <;>
    (subst h; first | exact dChar_ne_Z _ | decide)

theorem renderOffStr_no_z (neg : Bool) (oh om : Nat) :
    ∀ c ∈ renderOffStr neg oh om, c ≠ 'Z' := by
  intro c hc
  cases neg <;>
    simp only [renderOffStr, pad2, if_true, if_false, Bool.false_eq_true,
      List.cons_append, List.nil_append, List.mem_cons, List.not_mem_nil, or_false] at hc <;>
    rcases hc with h | h | h | h | h | h <;>
    (subst h; first | exact dChar_ne_Z _ | decide)

theorem parse_render_off (lo : Int) (f : DT) (hf : ValidDT f) (neg : Bool)
    (oh om : Nat) (hh : oh ≤ 23) (hm : om ≤ 59) :
    parse_iso8601 lo (renderTs f ++ renderOffStr neg oh om) =
      .ok ((naiveDT f : Int) - 60 * offVal neg oh om) := by
  have hnz : replaceZ (renderTs f ++ renderOffStr neg oh om) =
      renderTs f ++ renderOffStr neg oh om := by
    apply replaceZ_no_z
    intro c hc
    rcases List.mem_append.mp hc with h | h
    · exact renderTs_no_z f c h
    · exact renderOffStr_no_z neg oh om c h
  have hfi := fromisoformat_render f hf (renderOffStr neg oh om)
    (some (offVal neg oh om)) (parseOff_render neg oh om hh hm)
  unfold parse_iso8601
  rw [hnz, hfi]

theorem parse_renderZ (lo : Int) (f : DT) (hf : ValidDT f) :
    parse_iso8601 lo (renderZ f) = .ok ((naiveDT f : Int)) := by
  have hz : replaceZ (renderZ f) = renderTs f ++ renderOffStr false 0 0 := by
    unfold renderZ
    rw [replaceZ_append, replaceZ_no_z (renderTs_no_z f)]
    rfl
  have hfi := fromisoformat_render f hf (renderOffStr false 0 0)
    (some (offVal false 0 0)) (parseOff_render false 0 0 (by decide) (by decide))
  unfold parse_iso8601
  rw [hz, hfi]
  simp [offVal]

/-- C9: the time parser's contract.  On a well-formed timestamp carrying an
explicit `±HH:MM` offset the parser succeeds and returns the UTC-normalized
instant (the wall-clock value minus the offset), independently of the ambient
local-time offset; the `Z` designator is accepted through the
`"Z" → "+00:00"` replacement and yields the wall-clock instant itself; and on
any string the embedded `fromisoformat` grammar rejects, the parser returns
`Err.formatError` — never a default value — and that error propagates
uncaught through the orchestrator to a failed run. -/
theorem parse_iso8601_contract :
    (∀ (lo : Int) (f : DT), ValidDT f → ∀ (neg : Bool) (oh om : Nat), oh ≤ 23 → om ≤ 59 →
      parse_iso8601 lo (renderTs f ++ renderOffStr neg oh om) =
        .ok ((naiveDT f : Int) - 60 * offVal neg oh om)) ∧
    (∀ (lo : Int) (f : DT), ValidDT f →
      parse_iso8601 lo (renderZ f) = .ok ((naiveDT f : Int))) ∧
    (∀ (lo : Int) (s : Str), fromisoformat (replaceZ s) = none →
      parse_iso8601 lo s = .error .formatError) ∧
    (∀ (lo now : Int) (repo : Str) (days : Nat) (inc gh : Bool) (r : Release)
      (rels : List Release) (pa : Str),
      r.draft = false → r.prerelease = false → pubOrCreated r = some pa → pa ≠ [] →
      fromisoformat (replaceZ pa) = none →
      mainRun repo days inc gh lo now (r :: rels) = .error .formatError) := by
  refine ⟨fun lo f hf => parse_render_off lo f hf, fun lo f hf => parse_renderZ lo f hf,
    ?_, ?_⟩
  · intro lo s h
    unfold parse_iso8601
    rw [h]
  · intro lo now repo days inc gh r rels pa hdr hpr hpc hpa hbad
    have hparse : parse_iso8601 lo pa = .error .formatError := by
      unfold parse_iso8601
      rw [hbad]
    have hsel : selectReleases lo (now - (days : Int) * 86400) inc (r :: rels) =
        .error .formatError := by
      simp only [selectReleases, hdr, hpr, hpc, hparse, hpa]
      simp [hpa]
    simp only [mainRun, hsel]

/-- Witness for `parse_iso8601_contract` at concrete timestamps: an
offset-bearing timestamp is normalized by subtracting its offset, a
`Z`-designated timestamp parses to its wall-clock instant, and a malformed
timestamp fails with `formatError` for any ambient local offset. -/
theorem parse_iso8601_contract_witness :
    parse_iso8601 5 (renderTs ⟨2024, 1, 2, 4, 4, 5⟩ ++ renderOffStr false 1 0) =
      .ok ((naiveDT ⟨2024, 1, 2, 4, 4, 5⟩ : Int) - 60 * offVal false 1 0) ∧
    parse_iso8601 7 (renderZ ⟨2024, 1, 2, 3, 4, 5⟩) =
      .ok ((naiveDT ⟨2024, 1, 2, 3, 4, 5⟩ : Int)) ∧
    parse_iso8601 0 "not a date".data = .error .formatError :=
  ⟨parse_iso8601_contract.1 5 ⟨2024, 1, 2, 4, 4, 5⟩ (by decide) false 1 0
      (by decide) (by decide),
   parse_iso8601_contract.2.1 7 ⟨2024, 1, 2, 3, 4, 5⟩ (by decide),
   parse_iso8601_contract.2.2.1 0 "not a date".data (by rfl)⟩

/-! ## C7 -/

theorem pyStrLt_irrefl : ∀ l : Str, pyStrLt l l = false := by
  intro l
  induction l with
  | nil => rfl
  | cons c rest ih => simp [pyStrLt, ih]

theorem pyStrLt_asymm : ∀ {a b : Str}, pyStrLt a b = true → pyStrLt b a = false := by
  intro a
  induction a with
  | nil =>
    intro b h
    cases b with
    | nil => simp [pyStrLt] at h
    | cons d ds => rfl
  | cons c cs ih =>
    intro b h
    cases b with
    | nil => simp [pyStrLt] at h
    | cons d ds =>
      simp only [pyStrLt] at h ⊢
      by_cases h1 : c.toNat < d.toNat
      · have h3 : ¬ d.toNat < c.toNat := by omega
        have h4 : ¬ d.toNat = c.toNat := by omega
        simp [h3, h4]
      · by_cases h2 : c.toNat = d.toNat
        · simp [h1, h2] at h
          simp [h2, ih h]
        · simp [h1, h2] at h

theorem pyStrLt_trans : ∀ {a b c : Str}, pyStrLt a b = true → pyStrLt b c = true →
    pyStrLt a c = true := by
  intro a
  induction a with
  | nil =>
    intro b c hab hbc
    cases b with
    | nil => simp [pyStrLt] at hab
    | cons d ds =>
      cases c with
      | nil => simp [pyStrLt] at hbc
      | cons e es => rfl
  | cons x xs ih =>
    intro b c hab hbc
    cases b with
    | nil => simp [pyStrLt] at hab
    | cons d ds =>
      cases c with
      | nil => simp [pyStrLt] at hbc
      | cons e es =>
        simp only [pyStrLt] at hab hbc ⊢
        by_cases h1 : x.toNat < d.toNat <;> by_cases h2 : d.toNat < e.toNat
        · simp [show x.toNat < e.toNat by omega]
        · simp [h1, h2] at hbc ⊢
          obtain ⟨hde, hrest⟩ := hbc
          simp [show x.toNat < e.toNat by omega]
        · simp [h1] at hab
          obtain ⟨hxd, hrest⟩ := hab
          simp [show x.toNat < e.toNat by omega]
        · simp [h1, h2] at hab hbc
          obtain ⟨hxd, hab'⟩ := hab
          obtain ⟨hde, hbc'⟩ := hbc
          have hxe : ¬ x.toNat < e.toNat := by omega
          simp [hxe, show x.toNat = e.toNat by omega]
          exact ih hab' hbc'

theorem pyStrLt_not_lt : ∀ {a b : Str}, pyStrLt a b = false →
    pyStrLt b a = true ∨ a = b := by
  intro a
  induction a with
  | nil =>
    intro b h
    cases b with
    | nil => exact Or.inr rfl
    | cons d ds => simp [pyStrLt] at h
  | cons c cs ih =>
    intro b h
    cases b with
    | nil => exact Or.inl rfl
    | cons d ds =>
      simp only [pyStrLt] at h ⊢
      by_cases h1 : c.toNat < d.toNat
      · simp [h1] at h
      · by_cases h2 : c.toNat = d.toNat
        · simp [h1, h2] at h
          rcases ih h with h3 | h3
          · left
            have h5 : ¬ d.toNat < c.toNat := by omega
            simp [h5, h2.symm, h3]
          · right
            have hcd : c = d := by
              simpa [Char.ext_iff, UInt32.ext_iff, Char.toNat] using h2
            rw [hcd, h3]
        · left
          have : d.toNat < c.toNat := by omega
          simp [this]

theorem pyStrLt_append_same : ∀ (a c d : Str),
    pyStrLt (a ++ c) (a ++ d) = pyStrLt c d := by
  intro a c d
  induction a with
  | nil => rfl
  | cons x xs ih => simp [pyStrLt, ih]

theorem pyStrLt_append_diff : ∀ (a b : Str), a.length = b.length → a ≠ b →
    ∀ (c d : Str), pyStrLt (a ++ c) (b ++ d) = pyStrLt a b := by
  intro a
  induction a with
  | nil =>
    intro b hl hne c d
    cases b with
    | nil => exact absurd rfl hne
    | cons y ys => simp at hl
  | cons x xs ih =>
    intro b hl hne c d
    cases b with
    | nil => simp at hl
    | cons y ys =>
      simp only [List.length_cons, Nat.succ.injEq] at hl
      simp only [List.cons_append, pyStrLt]
      by_cases h1 : x.toNat < y.toNat
      · simp [h1]
      · by_cases h2 : x.toNat = y.toNat
        · have hxy : x = y := by
            simpa [Char.ext_iff, UInt32.ext_iff, Char.toNat] using h2
          subst hxy
          have hne' : xs ≠ ys := by
            intro hEq
            exact hne (by rw [hEq])
          simp [h1, h2, ih ys hl hne']
        · simp [h1, h2]

theorem toNat_dChar {k : Nat} (h : k < 10) : (dChar k).toNat = 48 + k := by
  interval_cases k <;> rfl

theorem pad2_lt_iff {m n : Nat} (hm : m < 100) (hn : n < 100) :
    (pyStrLt (pad2 m) (pad2 n) = true ↔ m < n) := by
  have d1 : m / 10 < 10 := by omega
  have d2 : m % 10 < 10 := by omega
  have d3 : n / 10 < 10 := by omega
  have d4 : n % 10 < 10 := by omega
  simp only [pad2, pyStrLt, toNat_dChar d1, toNat_dChar d2, toNat_dChar d3, toNat_dChar d4]
  by_cases h1 : 48 + m / 10 < 48 + n / 10
  · simp [h1]
    omega
  · by_cases h2 : 48 + m / 10 = 48 + n / 10
    · simp [h1, h2]
      omega
    · simp [h1, h2]
      omega

theorem pad2_inj {m n : Nat} (hm : m < 100) (hn : n < 100) :
    (pad2 m = pad2 n ↔ m = n) := by
  constructor
  · intro h
    have d1 : m / 10 < 10 := by omega
    have d2 : m % 10 < 10 := by omega
    have d3 : n / 10 < 10 := by omega
    have d4 : n % 10 < 10 := by omega
    simp only [pad2, List.cons.injEq, and_true] at h
    obtain ⟨ha, hb⟩ := h
    have e1 : (dChar (m / 10)).toNat = (dChar (n / 10)).toNat := by rw [ha]
    have e2 : (dChar (m % 10)).toNat = (dChar (n % 10)).toNat := by rw [hb]
    rw [toNat_dChar d1, toNat_dChar d3] at e1
    rw [toNat_dChar d2, toNat_dChar d4] at e2
    omega
  · intro h
    rw [h]

theorem pad4_lt_iff {m n : Nat} (hm : m < 10000) (hn : n < 10000) :
    (pyStrLt (pad4 m) (pad4 n) = true ↔ m < n) := by
  have d1 : m / 1000 < 10 := by omega
  have d2 : m / 100 % 10 < 10 := by omega
  have d3 : m / 10 % 10 < 10 := by omega
  have d4 : m % 10 < 10 := by omega
  have d5 : n / 1000 < 10 := by omega
  have d6 : n / 100 % 10 < 10 := by omega
  have d7 : n / 10 % 10 < 10 := by omega
  have d8 : n % 10 < 10 := by omega
  simp only [pad4, pyStrLt, toNat_dChar d1, toNat_dChar d2, toNat_dChar d3, toNat_dChar d4,
    toNat_dChar d5, toNat_dChar d6, toNat_dChar d7, toNat_dChar d8]
  by_cases h1 : 48 + m / 1000 < 48 + n / 1000 <;>
    by_cases h2 : 48 + m / 1000 = 48 + n / 1000 <;>
    by_cases h3 : 48 + m / 100 % 10 < 48 + n / 100 % 10 <;>
    by_cases h4 : 48 + m / 100 % 10 = 48 + n / 100 % 10 <;>
    by_cases h5 : 48 + m / 10 % 10 < 48 + n / 10 % 10 <;>
    by_cases h6 : 48 + m / 10 % 10 = 48 + n / 10 % 10 <;>
    by_cases h7 : 48 + m % 10 < 48 + n % 10 <;>
    simp [h1, h2, h3, h4, h5, h6, h7] <;> omega

theorem pad4_inj {m n : Nat} (hm : m < 10000) (hn : n < 10000) :
    (pad4 m = pad4 n ↔ m = n) := by
  constructor
  · intro h
    have d1 : m / 1000 < 10 := by omega
    have d2 : m / 100 % 10 < 10 := by omega
    have d3 : m / 10 % 10 < 10 := by omega
    have d4 : m % 10 < 10 := by omega
    have d5 : n / 1000 < 10 := by omega
    have d6 : n / 100 % 10 < 10 := by omega
    have d7 : n / 10 % 10 < 10 := by omega
    have d8 : n % 10 < 10 := by omega
    simp only [pad4, List.cons.injEq, and_true] at h
    obtain ⟨ha, hb, hc, hd⟩ := h
    have e1 : (dChar (m / 1000)).toNat = (dChar (n / 1000)).toNat := by rw [ha]
    have e2 : (dChar (m / 100 % 10)).toNat = (dChar (n / 100 % 10)).toNat := by rw [hb]
    have e3 : (dChar (m / 10 % 10)).toNat = (dChar (n / 10 % 10)).toNat := by rw [hc]
    have e4 : (dChar (m % 10)).toNat = (dChar (n % 10)).toNat := by rw [hd]
    rw [toNat_dChar d1, toNat_dChar d5] at e1
    rw [toNat_dChar d2, toNat_dChar d6] at e2
    rw [toNat_dChar d3, toNat_dChar d7] at e3
    rw [toNat_dChar d4, toNat_dChar d8] at e4
    omega
  · intro h
    rw [h]

theorem dby_succ (y : Nat) (hy : 1 ≤ y) :
    daysBeforeYear (y + 1) = daysBeforeYear y + (if isLeap y then 366 else 365) := by
  obtain ⟨n, rfl⟩ : ∃ n, y = n + 1 := ⟨y - 1, by omega⟩
  have hleap : isLeap (n + 1) = true ↔
      ((n + 1) % 4 = 0 ∧ ((n + 1) % 100 ≠ 0 ∨ (n + 1) % 400 = 0)) := by
    simp [isLeap]
  unfold daysBeforeYear
  simp only [Nat.add_sub_cancel]
  rw [Nat.succ_div n 4, Nat.succ_div n 100, Nat.succ_div n 400]
  have hns : n / 100 ≤ 365 * n + n / 4 + n / 400 := by
    have := Nat.div_le_self n 100
    omega
  by_cases hL : isLeap (n + 1) = true
  · rw [if_pos hL]
    rw [hleap] at hL
    by_cases h4 : (4 : Nat) ∣ (n + 1)
    · rw [if_pos h4]
      by_cases h100 : (100 : Nat) ∣ (n + 1)
      · rw [if_pos h100]
        by_cases h400 : (400 : Nat) ∣ (n + 1)
        · rw [if_pos h400]
          omega
        · rw [if_neg h400]
          omega
      · rw [if_neg h100]
        by_cases h400 : (400 : Nat) ∣ (n + 1)
        · rw [if_pos h400]
          omega
        · rw [if_neg h400]
          omega
    · rw [if_neg h4]
      by_cases h100 : (100 : Nat) ∣ (n + 1)
      · rw [if_pos h100]
        by_cases h400 : (400 : Nat) ∣ (n + 1)
        · rw [if_pos h400]
          omega
        · rw [if_neg h400]
          omega
      · rw [if_neg h100]
        by_cases h400 : (400 : Nat) ∣ (n + 1)
        · rw [if_pos h400]
          omega
        · rw [if_neg h400]
          omega
  · rw [if_neg hL]
    rw [hleap] at hL
    by_cases h4 : (4 : Nat) ∣ (n + 1)
    · rw [if_pos h4]
      by_cases h100 : (100 : Nat) ∣ (n + 1)
      · rw [if_pos h100]
        by_cases h400 : (400 : Nat) ∣ (n + 1)
        · rw [if_pos h400]
          omega
        · rw [if_neg h400]
          omega
      · rw [if_neg h100]
        by_cases h400 : (400 : Nat) ∣ (n + 1)
        · rw [if_pos h400]
          omega
        · rw [if_neg h400]
          omega
    · rw [if_neg h4]
      by_cases h100 : (100 : Nat) ∣ (n + 1)
      · rw [if_pos h100]
        by_cases h400 : (400 : Nat) ∣ (n + 1)
        · rw [if_pos h400]
          omega
        · rw [if_neg h400]
          omega
      · rw [if_neg h100]
        by_cases h400 : (400 : Nat) ∣ (n + 1)
        · rw [if_pos h400]
          omega
        · rw [if_neg h400]
          omega

theorem dby_mono : ∀ {y y' : Nat}, 1 ≤ y → y ≤ y' →
    daysBeforeYear y ≤ daysBeforeYear y' := by
  intro y y' h1 h
  induction y' with
  | zero => omega
  | succ k ih =>
    rcases Nat.lt_or_ge y (k + 1) with hlt | hge
    · have hyk : y ≤ k := by omega
      have hk1 : 1 ≤ k := by omega
      calc daysBeforeYear y ≤ daysBeforeYear k := ih hyk
        _ ≤ daysBeforeYear (k + 1) := by
            rw [dby_succ k hk1]
            split <;> omega
    · have : y = k + 1 := by omega
      rw [this]

theorem dbm_d_le {y mo d : Nat} (hm1 : 1 ≤ mo) (hm2 : mo ≤ 12)
    (hd : d ≤ daysInMonth y mo) :
    daysBeforeMonth y mo + d ≤ 365 + (if isLeap y then 1 else 0) := by
  interval_cases mo <;>
    unfold daysBeforeMonth daysInMonth at * <;>
    cases hL : isLeap y <;> simp [hL] at hd ⊢ <;> omega

theorem dbm_step {y mo mo' : Nat} (hm1 : 1 ≤ mo) (hlt : mo < mo') (hm2 : mo' ≤ 12) :
    daysBeforeMonth y mo + daysInMonth y mo ≤ daysBeforeMonth y mo' := by
  have hm2' : mo ≤ 12 := by omega
  have hm1' : 1 ≤ mo' := by omega
  interval_cases mo <;> interval_cases mo' <;>
    unfold daysBeforeMonth daysInMonth <;>
    cases hL : isLeap y <;> simp [hL] <;> omega

theorem ord_lt_of_date_lt {y mo d y' mo' d' : Nat}
    (hy : 1 ≤ y) (hm1 : 1 ≤ mo) (hm2 : mo ≤ 12) (hd1 : 1 ≤ d)
    (hd2 : d ≤ daysInMonth y mo)
    (hy' : 1 ≤ y') (hm1' : 1 ≤ mo') (hm2' : mo' ≤ 12) (hd1' : 1 ≤ d')
    (hlt : y < y' ∨ (y = y' ∧ (mo < mo' ∨ (mo = mo' ∧ d < d')))) :
    daysBeforeYear y + daysBeforeMonth y mo + (d - 1) <
      daysBeforeYear y' + daysBeforeMonth y' mo' + (d' - 1) := by
  rcases hlt with hlt | ⟨rfl, hlt⟩
  · have hbound := dbm_d_le hm1 hm2 hd2
    have hsucc := dby_succ y hy
    have hmono : daysBeforeYear (y + 1) ≤ daysBeforeYear y' := dby_mono (by omega) (by omega)
    split at hbound <;> split at hsucc <;> omega
  · rcases hlt with hlt | ⟨rfl, hlt⟩
    · have hstep := dbm_step (y := y) hm1 hlt hm2'
      omega
    · omega

theorem fieldsLt_trichotomy (f g : DT) : fieldsLt f g ∨ f = g ∨ fieldsLt g f := by
  obtain ⟨y1, m1, dd1, hh1, i1, s1⟩ := f
  obtain ⟨y2, m2, dd2, hh2, i2, s2⟩ := g
  simp [fieldsLt, DT.mk.injEq]
  omega

theorem naiveDT_lt_of_fieldsLt {f g : DT} (hf : ValidDT f) (hg : ValidDT g)
    (h : fieldsLt f g) : naiveDT f < naiveDT g := by
  obtain ⟨f1, f2, f3, f4, f5, f6, f7, f8, f9⟩ := hf
  obtain ⟨g1, g2, g3, g4, g5, g6, g7, g8, g9⟩ := hg
  unfold naiveDT naiveSecs
  unfold fieldsLt at h
  by_cases hdate : f.y < g.y ∨ (f.y = g.y ∧ (f.mo < g.mo ∨ (f.mo = g.mo ∧ f.d < g.d)))
  · have hord := ord_lt_of_date_lt f1 f3 f4 f5 f6 g1 g3 g4 g5 hdate
    omega
  · have hy : f.y = g.y := by omega
    have hmo : f.mo = g.mo := by omega
    have hd : f.d = g.d := by omega
    rw [hy, hmo, hd]
    omega

theorem naiveDT_lt_iff {f g : DT} (hf : ValidDT f) (hg : ValidDT g) :
    (naiveDT f < naiveDT g ↔ fieldsLt f g) := by
  constructor
  · intro h
    rcases fieldsLt_trichotomy f g with ht | ht | ht
    · exact ht
    · rw [ht] at h
      omega
    · have := naiveDT_lt_of_fieldsLt hg hf ht
      omega
  · exact naiveDT_lt_of_fieldsLt hf hg

theorem pyStrLt_cons_same (c : Char) (u v : Str) :
    pyStrLt (c :: u) (c :: v) = pyStrLt u v := by
  simp [pyStrLt]

theorem pyStrLt_append_block {a b : Str} (hl : a.length = b.length) (c d : Str) :
    (pyStrLt (a ++ c) (b ++ d) = true ↔
      (pyStrLt a b = true ∨ (a = b ∧ pyStrLt c d = true))) := by
  by_cases he : a = b
  · subst he
    rw [pyStrLt_append_same]
    simp [pyStrLt_irrefl]
  · rw [pyStrLt_append_diff a b hl he]
    simp [he]

theorem renderZ_lt_iff {f g : DT} (hf : ValidDT f) (hg : ValidDT g) :
    (pyStrLt (renderZ f) (renderZ g) = true ↔ fieldsLt f g) := by
  obtain ⟨f1, f2, f3, f4, f5, f6, f7, f8, f9⟩ := hf
  obtain ⟨g1, g2, g3, g4, g5, g6, g7, g8, g9⟩ := hg
  have hfd31 : f.d ≤ 31 := le_trans f6 (daysInMonth_le_31 _ _)
  have hgd31 : g.d ≤ 31 := le_trans g6 (daysInMonth_le_31 _ _)
  have hy : f.y < 10000 := by omega
  have hy' : g.y < 10000 := by omega
  have hmo : f.mo < 100 := by omega
  have hmo' : g.mo < 100 := by omega
  have hd : f.d < 100 := by omega
  have hd' : g.d < 100 := by omega
  have hh : f.h < 100 := by omega
  have hh' : g.h < 100 := by omega
  have hmi : f.mi < 100 := by omega
  have hmi' : g.mi < 100 := by omega
  have hs : f.s < 100 := by omega
  have hs' : g.s < 100 := by omega
  unfold renderZ renderTs
  simp only [List.append_assoc, List.cons_append, List.nil_append]
  rw [pyStrLt_append_block (by simp [pad4]) _ _, pad4_lt_iff hy hy', pad4_inj hy hy',
    pyStrLt_cons_same,
    pyStrLt_append_block (by simp [pad2]) _ _, pad2_lt_iff hmo hmo', pad2_inj hmo hmo',
    pyStrLt_cons_same,
    pyStrLt_append_block (by simp [pad2]) _ _, pad2_lt_iff hd hd', pad2_inj hd hd',
    pyStrLt_cons_same,
    pyStrLt_append_block (by simp [pad2]) _ _, pad2_lt_iff hh hh', pad2_inj hh hh',
    pyStrLt_cons_same,
    pyStrLt_append_block (by simp [pad2]) _ _, pad2_lt_iff hmi hmi', pad2_inj hmi hmi',
    pyStrLt_cons_same,
    pyStrLt_append_block (by simp [pad2]) _ _, pad2_lt_iff hs hs', pad2_inj hs hs']
  unfold fieldsLt
  simp [pyStrLt]

theorem wfTs_lt_iff {s t : Str} {lo lo' u v : Int} (hs : wfTs s) (ht : wfTs t)
    (hu : parse_iso8601 lo s = .ok u) (hv : parse_iso8601 lo' t = .ok v) :
    (pyStrLt s t = true ↔ u < v) := by
  obtain ⟨f, hf, rfl⟩ := hs
  obtain ⟨g, hg, rfl⟩ := ht
  have h1 := parse_renderZ lo f hf
  rw [hu] at h1
  have hu' : u = (naiveDT f : Int) := by
    injection h1
  have h2 := parse_renderZ lo' g hg
  rw [hv] at h2
  have hv' : v = (naiveDT g : Int) := by
    injection h2
  subst hu'
  subst hv'
  rw [renderZ_lt_iff hf hg, ← naiveDT_lt_iff hf hg]
  exact (Nat.cast_lt).symm

theorem mem_insertDesc {z x : Release} : ∀ {l : List Release},
    z ∈ insertDesc x l → z = x ∨ z ∈ l := by
  intro l
  induction l with
  | nil =>
    intro h
    simpa [insertDesc] using h
  | cons y ys ih =>
    intro h
    unfold insertDesc at h
    split_ifs at h
    · rcases List.mem_cons.mp h with h' | h'
      · exact Or.inr (List.mem_cons.mpr (Or.inl h'))
      · rcases ih h' with h'' | h''
        · exact Or.inl h''
        · exact Or.inr (List.mem_cons.mpr (Or.inr h''))
    · rcases List.mem_cons.mp h with h' | h'
      · exact Or.inl h'
      · exact Or.inr h'

theorem insertDesc_pairwise (x : Release) : ∀ (l : List Release),
    l.Pairwise (fun a b => pyStrLt (sortKey a) (sortKey b) = false) →
    (insertDesc x l).Pairwise (fun a b => pyStrLt (sortKey a) (sortKey b) = false) := by
  intro l
  induction l with
  | nil =>
    intro _
    simp [insertDesc]
  | cons y ys ih =>
    intro hp
    obtain ⟨hy, hys⟩ := List.pairwise_cons.mp hp
    unfold insertDesc
    split_ifs with hc
    · refine List.pairwise_cons.mpr ⟨?_, ih hys⟩
      intro z hz
      rcases mem_insertDesc hz with rfl | hz'
      · exact pyStrLt_asymm hc
      · exact hy z hz'
    · refine List.pairwise_cons.mpr ⟨?_, hp⟩
      intro z hz
      rcases List.mem_cons.mp hz with rfl | hz'
      · simpa using hc
      · have hyz := hy z hz'
        rcases pyStrLt_not_lt (by simpa using hc : pyStrLt (sortKey x) (sortKey y) = false)
          with hyx | hxy
        · by_cases hxz : pyStrLt (sortKey x) (sortKey z) = true
          · have := pyStrLt_trans hyx hxz
            rw [this] at hyz
            exact absurd hyz (by simp)
          · simpa using hxz
        · rw [hxy]
          exact hyz

theorem sortDesc_pairwise (l : List Release) :
    (sortDesc l).Pairwise (fun a b => pyStrLt (sortKey a) (sortKey b) = false) := by
  induction l with
  | nil => simp [sortDesc]
  | cons r rest ih => exact insertDesc_pairwise r (sortDesc rest) ih

theorem mem_sortDesc {z : Release} : ∀ {l : List Release}, z ∈ sortDesc l → z ∈ l := by
  intro l
  induction l with
  | nil =>
    intro h
    simpa [sortDesc] using h
  | cons r rest ih =>
    intro h
    rcases mem_insertDesc h with rfl | h'
    · exact List.mem_cons_self _ _
    · exact List.mem_cons_of_mem _ (ih h')

/-- C7: the orchestrator sorts the surviving releases descending by the raw
publish-timestamp string (`published_at`, falling back to `created_at`), and
on the platform's fixed-width `YYYY-MM-DDTHH:MM:SSZ` format the lexicographic
string order coincides exactly with the chronological order of the parsed
instants; consequently the sorted list — hence the report — carries the
releases newest published first (parsed instants non-increasing). -/
theorem sort_newest_first :
    (∀ (lo lo' u v : Int) (s t : Str), wfTs s → wfTs t →
      parse_iso8601 lo s = .ok u → parse_iso8601 lo' t = .ok v →
      (pyStrLt s t = true ↔ u < v)) ∧
    (∀ (lo : Int) (rels : List Release), (∀ r ∈ rels, wfTs (sortKey r)) →
      (sortDesc rels).Pairwise (fun a b => ∀ u v : Int,
        parse_iso8601 lo (sortKey a) = .ok u →
        parse_iso8601 lo (sortKey b) = .ok v → v ≤ u)) := by
  constructor
  · intro lo lo' u v s t hs ht hu hv
    exact wfTs_lt_iff hs ht hu hv
  · intro lo rels hwf
    have hp := sortDesc_pairwise rels
    refine hp.imp_of_mem ?_
    intro a b ha hb hR u v hu hv
    have hwa : wfTs (sortKey a) := hwf a (mem_sortDesc ha)
    have hwb : wfTs (sortKey b) := hwf b (mem_sortDesc hb)
    have hiff := wfTs_lt_iff hwa hwb hu hv
    have : ¬ (u < v) := by
      intro hlt
      rw [← hiff] at hlt
      rw [hlt] at hR
      exact absurd hR (by simp)
    omega

/-- Witness for `sort_newest_first` at concrete timestamps and releases: the
string comparison agrees with the instant comparison, and a two-release list
is sorted newest first. -/
theorem sort_newest_first_witness :
    (pyStrLt "2023-12-31T23:59:59Z".data "2024-01-02T03:04:05Z".data = true ↔
      (63839663999 : Int) < 63839761445) ∧
    (sortDesc [{ published_at := some "2023-12-31T23:59:59Z".data },
               { published_at := some "2024-01-02T03:04:05Z".data }]).Pairwise
      (fun a b => ∀ u v : Int,
        parse_iso8601 0 (sortKey a) = .ok u →
        parse_iso8601 0 (sortKey b) = .ok v → v ≤ u) := by
  constructor
  · exact sort_newest_first.1 0 0 63839663999 63839761445
      "2023-12-31T23:59:59Z".data "2024-01-02T03:04:05Z".data
      ⟨⟨2023, 12, 31, 23, 59, 59⟩, by decide, by decide⟩
      ⟨⟨2024, 1, 2, 3, 4, 5⟩, by decide, by decide⟩ (by rfl) (by rfl)
  · exact sort_newest_first.2 0
      [{ published_at := some "2023-12-31T23:59:59Z".data },
       { published_at := some "2024-01-02T03:04:05Z".data }]
      (by
        intro r hr
        rcases List.mem_cons.mp hr with rfl | hr'
        · exact ⟨⟨2023, 12, 31, 23, 59, 59⟩, by decide, by decide⟩
        · rcases List.mem_cons.mp hr' with rfl | hr''
          · exact ⟨⟨2024, 1, 2, 3, 4, 5⟩, by decide, by decide⟩
          · simp at hr'')
